import Mathlib

/-!
Verification of the metaflow library (`do.ts`, `exception.ts`, `tap.ts`).

The development shallowly embeds the two component families of the library:

* the pipeline chain (`Do`, `Thunk`, `AsyncThunk`) from `src/do.ts`, including a
  microtask-tick cost model for `AsyncThunk.done`'s two execution strategies, and
* the exception chain (`Try`, `TryChain`, `isErrorOf`) from `exception.ts`.

JavaScript values are modelled by the first-order type `JSVal`; a resolved
promise is `JSVal.promise v`.  Step bodies may emit observable side effects,
modelled as a list of event tags.  A function that can throw is modelled in
`Except JSVal`.
-/

namespace Metaflow

/-- Model of the JavaScript values the library manipulates: `undefined`,
booleans, numbers (integral only; the library does no arithmetic of its own),
opaque objects identified by a tag, `Error` objects carrying their message,
and resolved promises holding their settlement value. -/
inductive JSVal where
  | undef : JSVal
  | boolV : Bool → JSVal
  | num : Int → JSVal
  | obj : Nat → JSVal
  | errObj : String → JSVal
  | promise : JSVal → JSVal
deriving DecidableEq, Repr

/-- JavaScript truthiness of a `JSVal`: `undefined` and `0` are falsy; objects,
errors and promises are truthy. -/
def truthy : JSVal → Bool
  | .undef => false
  | .boolV b => b
  | .num n => n != 0
  | .obj _ => true
  | .errObj _ => true
  | .promise _ => true

/-- The check `typeof (x)?.then === "function"` from `AsyncThunk.done`: in this
model only promises expose a callable `then`. -/
def isThenable : JSVal → Bool
  | .promise _ => true
  | _ => false

/-- Semantics of `await x` on an already-settled value: a resolved promise is
unwrapped to its settlement value, a plain value passes through unchanged.  The
one-microtask-tick cost of the await is accounted separately by the callers. -/
def awaitJS : JSVal → JSVal
  | .promise w => w
  | v => v

/-- Observable side effects emitted by step bodies, as a list of event tags in
emission order. -/
abbrev Events := List Nat

/-! ## The pipeline chain of `src/do.ts` -/

/-- One step of a pipeline chain: the tuple `[isAsync, f]` from `src/do.ts`.
The body `f` maps the accumulator to a result value together with the events it
emits while running.  An asynchronous step is expected to return a resolved
promise, but nothing enforces that (exactly as in the source). -/
structure Step where
  isAsync : Bool
  f : JSVal → JSVal × Events

/-- The `Thunk` builder: an immutable list of steps, all appended with the
synchronous flag (`readonly SyncStep[]` in the source). -/
structure Thunk where
  steps : List Step

/-- The `AsyncThunk` builder: an immutable list of steps of either kind. -/
structure AsyncThunk where
  steps : List Step

/-- `Do(value)` seeds a chain with the single synchronous step `() => value`. -/
def Do (value : JSVal) : Thunk :=
  ⟨[⟨false, fun _ => (value, [])⟩]⟩

/-- `Thunk.pipe(f)`: returns a new `Thunk` with a synchronous step appended;
`f` is stored, not invoked. -/
def Thunk.pipe (t : Thunk) (f : JSVal → JSVal × Events) : Thunk :=
  ⟨t.steps ++ [⟨false, f⟩]⟩

/-- `Thunk.pipeAwait(f)`: returns a new `AsyncThunk` with an asynchronous step
appended; `f` is stored, not invoked. -/
def Thunk.pipeAwait (t : Thunk) (f : JSVal → JSVal × Events) : AsyncThunk :=
  ⟨t.steps ++ [⟨true, f⟩]⟩

/-- `Thunk.rcall(f, ...args)`: defined in the source as
`this.pipe((value) => f.call(value, ...args))`. -/
def Thunk.rcall (t : Thunk) (f : JSVal → List JSVal → JSVal × Events)
    (args : List JSVal) : Thunk :=
  t.pipe (fun value => f value args)

/-- `Thunk.tap(f)`: defined in the source as
`this.pipe((value) => { f(value); return value; })`; the side-effect body `f`
yields only its emitted events. -/
def Thunk.tap (t : Thunk) (f : JSVal → Events) : Thunk :=
  t.pipe (fun value => (value, f value))

/-- `AsyncThunk.pipe(f)`: appends a synchronous step. -/
def AsyncThunk.pipe (t : AsyncThunk) (f : JSVal → JSVal × Events) : AsyncThunk :=
  ⟨t.steps ++ [⟨false, f⟩]⟩

/-- `AsyncThunk.pipeAwait(f)`: appends an asynchronous step. -/
def AsyncThunk.pipeAwait (t : AsyncThunk) (f : JSVal → JSVal × Events) : AsyncThunk :=
  ⟨t.steps ++ [⟨true, f⟩]⟩

/-- `AsyncThunk.rcall(f, ...args)`: `this.pipe((value) => f.call(value, ...args))`. -/
def AsyncThunk.rcall (t : AsyncThunk) (f : JSVal → List JSVal → JSVal × Events)
    (args : List JSVal) : AsyncThunk :=
  t.pipe (fun value => f value args)

/-- `AsyncThunk.tap(f)`: `this.pipe((value) => { f(value); return value; })`. -/
def AsyncThunk.tap (t : AsyncThunk) (f : JSVal → Events) : AsyncThunk :=
  t.pipe (fun value => (value, f value))

/-- State threaded through an execution of a chain: the accumulator value, the
events emitted so far (in order), and the number of microtask ticks an external
counter has observed so far.  Only an `await` of a settled value advances the
tick count (by one); plain synchronous calls advance it by zero. -/
structure RunState where
  value : JSVal
  events : Events
  ticks : Nat
deriving DecidableEq, Repr

/-- The loop `for (const [, f] of this._steps) { current = f(current); }` shared
by `Thunk.done` and the fast path of `AsyncThunk.done`: every step body is
called synchronously, the flag is ignored, and no await occurs, so the tick
count never advances. -/
def runSync (steps : List Step) : RunState :=
  steps.foldl (fun a s => let p := s.f a.value; ⟨p.1, a.events ++ p.2, a.ticks⟩)
    ⟨.undef, [], 0⟩

/-- `Thunk.done()`: runs the synchronous loop over the stored steps and returns
the final accumulator. -/
def Thunk.done (t : Thunk) : RunState :=
  runSync t.steps

/-- The loop of the slow path of `AsyncThunk.done`:
`current = isAsync ? await f(current) : f(current)`.  Each `await` of the
(resolved) value returned by an asynchronous step unwraps it and costs one
microtask tick. -/
def runSlow (steps : List Step) : RunState :=
  steps.foldl
    (fun a s =>
      let p := s.f a.value
      if s.isAsync then ⟨awaitJS p.1, a.events ++ p.2, a.ticks + 1⟩
      else ⟨p.1, a.events ++ p.2, a.ticks⟩)
    ⟨.undef, [], 0⟩

/-- The guard choosing the fast path in `AsyncThunk.done`:
`steps.length >= 1 && steps[steps.length - 1][0] && steps.slice(0, -1).every(([isAsync]) => !isAsync)`. -/
def isSimplePipeline (steps : List Step) : Bool :=
  decide (1 ≤ steps.length) &&
  (match steps.getLast? with
   | some s => s.isAsync
   | none => false) &&
  steps.dropLast.all (fun s => !s.isAsync)

/-- Settlement of the promise returned by `AsyncThunk.done()`: either a value or
a rejection carrying the thrown error. -/
inductive Outcome where
  | ok : JSVal → Outcome
  | err : JSVal → Outcome
deriving DecidableEq, Repr

/-- What a caller that awaits the promise returned by `AsyncThunk.done()`
observes: the settlement, the events emitted by the step bodies, and the total
number of microtask ticks an external counter advances before the caller
resumes. -/
structure Settled where
  outcome : Outcome
  events : Events
  ticks : Nat
deriving DecidableEq, Repr

/-- The usage error thrown when a synchronous step left a pending value as the
final accumulator. -/
def pipeUsageError : JSVal :=
  .errObj "AsyncThunk: pipe callback returned a promise; try pipeAwait instead"

/-- `AsyncThunk.done()` as observed by a caller awaiting its result.

Fast path (`isSimplePipeline`): all steps are run synchronously and the last
(asynchronous) step's promise is returned directly; the caller's await of that
resolved promise unwraps it and costs the single microtask tick.

Slow path: an async function runs the loop `runSlow`, awaiting each
asynchronous step (one tick each); if the final accumulator is itself a
thenable, the wrapper rejects with the usage error, otherwise it resolves with
the accumulator; the caller's await of the wrapper promise costs one more
tick. -/
def AsyncThunk.done (t : AsyncThunk) : Settled :=
  if isSimplePipeline t.steps then
    let r := runSync t.steps
    ⟨.ok (awaitJS r.value), r.events, r.ticks + 1⟩
  else
    let r := runSlow t.steps
    ⟨if isThenable r.value then .err pipeUsageError else .ok r.value,
      r.events, r.ticks + 1⟩

/-- Appending a list of synchronous steps with `Thunk.pipe`, in order. -/
def pipes (t : Thunk) : List (JSVal → JSVal × Events) → Thunk
  | [] => t
  | f :: fs => pipes (t.pipe f) fs

/-- A step body acting on the numeric payload, used for concrete pipelines. -/
def onNum (g : Int → Int) : JSVal → JSVal × Events :=
  fun x =>
    match x with
    | .num n => (.num (g n), [])
    | x => (x, [])

/-! ## Helper lemmas about the pipeline model -/

theorem foldl_runSync_ticks (steps : List Step) (a : RunState) :
    (steps.foldl
      (fun a s => let p := s.f a.value; ⟨p.1, a.events ++ p.2, a.ticks⟩)
      a).ticks = a.ticks := by
  induction steps generalizing a with
  | nil => rfl
  | cons s rest ih => rw [List.foldl_cons]; exact ih _

theorem runSync_ticks (steps : List Step) : (runSync steps).ticks = 0 :=
  foldl_runSync_ticks steps ⟨.undef, [], 0⟩

theorem pipes_steps (t : Thunk) (fs : List (JSVal → JSVal × Events)) :
    (pipes t fs).steps = t.steps ++ fs.map (fun f => (⟨false, f⟩ : Step)) := by
  induction fs generalizing t with
  | nil => simp [pipes]
  | cons f fs ih => simp [pipes, ih, Thunk.pipe]

theorem isSimplePipeline_concat (l : List Step) (s : Step)
    (hl : l.all (fun s => !s.isAsync) = true) (hs : s.isAsync = true) :
    isSimplePipeline (l ++ [s]) = true := by
  unfold isSimplePipeline
  rw [List.getLast?_concat, List.dropLast_concat]
  simp [hl, hs]

theorem pipes_all_sync (v : JSVal) (fs : List (JSVal → JSVal × Events)) :
    (pipes (Do v) fs).steps.all (fun s => !s.isAsync) = true := by
  rw [pipes_steps]
  simp [Do, List.all_map, Function.comp]

/-! ## Claim theorems about the pipeline chain -/

/-- C1: suspension counts of `done()`.  An all-synchronous pipeline of any
length runs with zero microtask ticks; a chain whose only asynchronous step is
the final one settles after exactly one tick (the fast path); and the seven
three-step mixed patterns settle after the enumerated tick counts
(sync-sync-async 1, sync-async-sync 2, sync-async-async 3, async-sync-sync 2,
async-sync-async 3, async-async-sync 3, async-async-async 4). -/
theorem C1_suspension_counts :
    (∀ (v : JSVal) (fs : List (JSVal → JSVal × Events)),
      (Thunk.done (pipes (Do v) fs)).ticks = 0) ∧
    (∀ (v : JSVal) (fs : List (JSVal → JSVal × Events))
        (g : JSVal → JSVal × Events),
      (AsyncThunk.done (Thunk.pipeAwait (pipes (Do v) fs) g)).ticks = 1) ∧
    (∀ (v : JSVal) (f1 f2 g3 : JSVal → JSVal × Events),
      (AsyncThunk.done (((Do v).pipe f1).pipe f2 |>.pipeAwait g3)).ticks = 1) ∧
    (∀ (v : JSVal) (f1 g2 f3 : JSVal → JSVal × Events),
      (AsyncThunk.done (((Do v).pipe f1).pipeAwait g2 |>.pipe f3)).ticks = 2) ∧
    (∀ (v : JSVal) (f1 g2 g3 : JSVal → JSVal × Events),
      (AsyncThunk.done (((Do v).pipe f1).pipeAwait g2 |>.pipeAwait g3)).ticks = 3) ∧
    (∀ (v : JSVal) (g1 f2 f3 : JSVal → JSVal × Events),
      (AsyncThunk.done (((Do v).pipeAwait g1).pipe f2 |>.pipe f3)).ticks = 2) ∧
    (∀ (v : JSVal) (g1 f2 g3 : JSVal → JSVal × Events),
      (AsyncThunk.done (((Do v).pipeAwait g1).pipe f2 |>.pipeAwait g3)).ticks = 3) ∧
    (∀ (v : JSVal) (g1 g2 f3 : JSVal → JSVal × Events),
      (AsyncThunk.done (((Do v).pipeAwait g1).pipeAwait g2 |>.pipe f3)).ticks = 3) ∧
    (∀ (v : JSVal) (g1 g2 g3 : JSVal → JSVal × Events),
      (AsyncThunk.done (((Do v).pipeAwait g1).pipeAwait g2 |>.pipeAwait g3)).ticks = 4) := by
  refine ⟨?_, ?_, ?_, ?_, ?_, ?_, ?_, ?_, ?_⟩
  · intro v fs
    exact runSync_ticks _
  · intro v fs g
    have hsimple : isSimplePipeline (Thunk.pipeAwait (pipes (Do v) fs) g).steps = true :=
      isSimplePipeline_concat _ _ (pipes_all_sync v fs) rfl
    rw [AsyncThunk.done, hsimple]
    simp [runSync_ticks]
  · intro v f1 f2 g3; rfl
  · intro v f1 g2 f3; rfl
  · intro v f1 g2 g3; rfl
  · intro v g1 f2 f3; rfl
  · intro v g1 f2 g3; rfl
  · intro v g1 g2 f3; rfl
  · intro v g1 g2 g3; rfl

/-- C9: `Thunk.done()` executes the appended steps in order, feeding each
step's output (and accumulating its emitted events) into the next, starting
from the seed produced from the `undefined` accumulator, with zero microtask
ticks; and `Do(42).pipe(x=>x+1).pipe(x=>x*2).done()` equals `86`. -/
theorem C9_thunk_done :
    (∀ (v : JSVal) (fs : List (JSVal → JSVal × Events)),
      Thunk.done (pipes (Do v) fs) =
        fs.foldl (fun a f => let p := f a.value; ⟨p.1, a.events ++ p.2, a.ticks⟩)
          ⟨v, [], 0⟩) ∧
    (Thunk.done (((Do (.num 42)).pipe (onNum (fun n => n + 1))).pipe
        (onNum (fun n => n * 2)))).value = .num 86 := by
  constructor
  · intro v fs
    rw [Thunk.done, pipes_steps]
    show runSync (⟨false, fun _ => (v, [])⟩ :: fs.map fun f => (⟨false, f⟩ : Step)) = _
    rw [runSync, List.foldl_cons, List.foldl_map]
    rfl
  · rfl

/-- A chain whose synchronous middle step (appended with `pipe`) returns a
resolved promise, followed by a trailing asynchronous step that returns its
(promise) input unchanged. -/
def promiseFromPipe : AsyncThunk :=
  ((Do (.num 42)).pipe (fun _ => (.promise (.num 1), []))).pipeAwait
    (fun x => (x, []))

/-- C2 counterexample: in `promiseFromPipe` the step appended with `pipe`
returns a pending value (a thenable) when executed, yet `done()` does not fail
with the usage error — the fast path passes the promise to the final step and
the caller's await silently resolves it to `1`. -/
theorem C2_counterexample :
    isThenable ((fun (_ : JSVal) => ((JSVal.promise (.num 1) : JSVal), ([] : Events)))
        (JSVal.num 42)).1 = true ∧
    (AsyncThunk.done promiseFromPipe).outcome = .ok (.num 1) := by
  exact ⟨rfl, rfl⟩

/-- C2 amended: `done()` rejects with the usage error exactly when the slow
path runs (the chain is not a simple trailing-async pipeline) and the final
accumulated value is itself a thenable.  A pending value returned by a
synchronous step that is not the final accumulated value — in particular any
such value produced on the fast path — is not detected. -/
theorem C2_usage_error_iff (t : AsyncThunk) :
    (AsyncThunk.done t).outcome = .err pipeUsageError ↔
      (isSimplePipeline t.steps = false ∧ isThenable (runSlow t.steps).value = true) := by
  rw [AsyncThunk.done]
  cases hs : isSimplePipeline t.steps with
  | true =>
    simp only [if_pos rfl]
    constructor
    · intro h
      exact absurd h (by simp [pipeUsageError])
    · rintro ⟨h, -⟩
      exact absurd h (by simp)
  | false =>
    simp only [Bool.false_eq_true, if_false]
    cases ht : isThenable (runSlow t.steps).value with
    | true => simp [ht]
    | false => simp [ht]

/-! ## The exception chain of `exception.ts` -/

/-- The two-variant `Result` tagged union: `{type:"Ok", value}` or
`{type:"Err", error}`. -/
inductive Result where
  | Ok : JSVal → Result
  | Err : JSVal → Result
deriving DecidableEq, Repr

/-- `TryChain`: owns exactly one `Result`, set at construction. -/
structure TryChain where
  result : Result
deriving DecidableEq, Repr

/-- Shape of the object stored in the `prototype` property of a JavaScript
function value, as far as `isErrorOf`'s heuristic inspects it: whether that
object is `instanceof Error`, and whether its own prototype is
`Object.prototype`. -/
structure ProtoObj where
  instanceofError : Bool
  protoIsObjectProto : Bool

/-- Model of a JavaScript function value used as an error predicate.
`prototype` is the function's `prototype` property (`none` for arrow
functions, bound functions and methods, which have no such property);
`instTest e` is the result of `e instanceof pred`; `call e` is the result of
invoking `pred(e)`, which may throw (for example, a class constructor invoked
without `new` throws a `TypeError`). -/
structure JSFunc where
  prototype : Option ProtoObj
  instTest : JSVal → Bool
  call : JSVal → Except JSVal JSVal

/-- `ErrorPredicate`: a function value (constructor or classifier — the code
distinguishes them only by the shape heuristic), an array of predicates, or
any other value (an invalid predicate shape). -/
inductive ErrorPredicate where
  | func : JSFunc → ErrorPredicate
  | arr : List ErrorPredicate → ErrorPredicate
  | other : ErrorPredicate

/-- The `TypeError` raised by `Object.getPrototypeOf(undefined)`. -/
def getPrototypeOfTypeError : JSVal :=
  .errObj "TypeError: Cannot convert undefined or null to object"

mutual

/-- `isErrorOf(e, pred)` translated branch for branch.  For a function-valued
predicate the source computes
`pred.prototype instanceof Error || Object.getPrototypeOf(pred.prototype) !== Object.prototype`:
when `prototype` is absent the left disjunct is `false` (`instanceof` on a
non-object is `false`) and the right disjunct throws a `TypeError` from
`Object.getPrototypeOf(undefined)`.  If the heuristic holds the predicate is
used with `instanceof`; otherwise it is invoked as a classifier and its raw
return value is handed back (truthiness is judged by the callers).  An array
is matched with `pred.some(...)`; any other shape throws
`new Error("Invalid predicate")`. -/
def isErrorOf (e : JSVal) : ErrorPredicate → Except JSVal JSVal
  | .func f =>
    match f.prototype with
    | some p =>
      if p.instanceofError then .ok (.boolV (f.instTest e))
      else if !p.protoIsObjectProto then .ok (.boolV (f.instTest e))
      else f.call e
    | none => .error getPrototypeOfTypeError
  | .arr ps => someMatch e ps
  | .other => .error (.errObj "Invalid predicate")

/-- `pred.some((p) => isErrorOf(e, p))`: tests the elements in order,
short-circuits on the first truthy result, and propagates any raise. -/
def someMatch (e : JSVal) : List ErrorPredicate → Except JSVal JSVal
  | [] => .ok (.boolV false)
  | p :: ps =>
    match isErrorOf e p with
    | .error ex => .error ex
    | .ok m => if truthy m then .ok (.boolV true) else someMatch e ps

end

/-- `Try(f)`: invokes `f` immediately; a normal return `v` yields an `Ok{v}`
chain, a raise of `e` is captured into an `Err{e}` chain.  `Try` itself never
raises. -/
def Try (f : Unit → Except JSVal JSVal) : TryChain :=
  match f () with
  | .ok value => ⟨.Ok value⟩
  | .error error => ⟨.Err error⟩

/-- Whether a chain operation returned the receiver itself (`return this;`) or
a freshly constructed chain (`return new TryChain(r);`) holding result `r`. -/
inductive OpResult where
  | self : OpResult
  | fresh : Result → OpResult
deriving DecidableEq, Repr

/-- The chain an operation on `c` evaluates to: `c` itself, or the freshly
allocated chain. -/
def OpResult.chain (c : TryChain) : OpResult → TryChain
  | .self => c
  | .fresh r => ⟨r⟩

/-- `TryChain.map(f)`: a fresh `Ok{f(v)}` chain on `Ok{v}`, a fresh `Err{e}`
chain on `Err{e}`. -/
def TryChain.map (c : TryChain) (f : JSVal → JSVal) : OpResult :=
  match c.result with
  | .Ok v => .fresh (.Ok (f v))
  | .Err e => .fresh (.Err e)

/-- `TryChain.case(pred, f)` (the method is named `case` in the source, a Lean
keyword): `Ok` returns `this`; a matching `Err{e}` invokes `f` on a fresh
`Err{e}` chain and returns a fresh `Ok` of its result; a non-matching `Err`
returns `this`.  A raise inside `isErrorOf` propagates. -/
def TryChain.caseOf (c : TryChain) (pred : ErrorPredicate) (f : TryChain → JSVal) :
    Except JSVal OpResult :=
  match c.result with
  | .Ok _ => .ok .self
  | .Err e =>
    match isErrorOf e pred with
    | .error ex => .error ex
    | .ok m => if truthy m then .ok (.fresh (.Ok (f ⟨.Err e⟩))) else .ok .self

/-- `TryChain.pick(pred)`: `Ok{v}` returns a fresh `Ok{v}` chain; a matching
`Err{e}` returns a fresh `Err{e}` chain; a non-matching `Err{e}` re-raises `e`
itself. -/
def TryChain.pick (c : TryChain) (pred : ErrorPredicate) : Except JSVal OpResult :=
  match c.result with
  | .Ok v => .ok (.fresh (.Ok v))
  | .Err e =>
    match isErrorOf e pred with
    | .error ex => .error ex
    | .ok m => if truthy m then .ok (.fresh (.Err e)) else .error e

/-- `TryChain.tap(f)`: invokes `f(error)` for its side effect when `Err`, and
returns `this` in both variants. -/
def TryChain.tap (c : TryChain) (f : JSVal → JSVal) : OpResult :=
  match c.result with
  | .Ok _ => .self
  | .Err e =>
    let _ := f e
    .self

/-- The argument of `TryChain.done`: in JavaScript a missing argument and an
explicitly passed `undefined` are the same value, and a function value is
always truthy while `undefined` is falsy, so the source's `if (fallback)`
distinguishes exactly these two constructors. -/
inductive FallbackArg where
  | undef : FallbackArg
  | func : (JSVal → Except JSVal JSVal) → FallbackArg

/-- `TryChain.done(fallback?)`: returns the `Ok` value; on `Err{e}` it invokes
a truthy `fallback` on `e` (whose own raise propagates), and otherwise —
including when `undefined` was passed explicitly — re-raises `e`. -/
def TryChain.done (c : TryChain) (fallback : FallbackArg) : Except JSVal JSVal :=
  match c.result with
  | .Ok v => .ok v
  | .Err e =>
    match fallback with
    | .func f => f e
    | .undef => .error e

/-- JavaScript truthiness of the `done` argument: `undefined` is falsy, a
function value is truthy. -/
def FallbackArg.truthy : FallbackArg → Bool
  | .undef => false
  | .func _ => true

/-- A plain function-expression classifier returning `true`: it has a
`prototype` property that is not `instanceof Error` and whose prototype is
`Object.prototype`, so the heuristic invokes it. -/
def fnTrue : ErrorPredicate :=
  .func ⟨some ⟨false, true⟩, fun _ => false, fun _ => .ok (.boolV true)⟩

/-- A plain function-expression classifier returning `false`. -/
def fnFalse : ErrorPredicate :=
  .func ⟨some ⟨false, true⟩, fun _ => false, fun _ => .ok (.boolV false)⟩

/-! ## Claim theorems about the exception chain -/

/-- C3: `Try(f)` invokes `f` immediately and captures its outcome rather than
raising; `Try(() => v).done()` equals `v`; `Try(() => { throw e }).done()`
re-raises exactly `e`; and `Try(() => { throw e }).done(fallback)` returns
`fallback(e)`. -/
theorem C3_try_done :
    (∀ (f : Unit → Except JSVal JSVal),
      (Try f).result =
        match f () with
        | .ok v => Result.Ok v
        | .error e => Result.Err e) ∧
    (∀ v : JSVal, TryChain.done (Try (fun _ => .ok v)) .undef = .ok v) ∧
    (∀ e : JSVal, TryChain.done (Try (fun _ => .error e)) .undef = .error e) ∧
    (∀ (e : JSVal) (fb : JSVal → Except JSVal JSVal),
      TryChain.done (Try (fun _ => .error e)) (.func fb) = fb e) := by
  refine ⟨?_, fun v => rfl, fun e => rfl, fun e fb => rfl⟩
  intro f
  cases h : f () <;> simp [Try, h]

/-- C4: `pick(pred)` on an `Ok{v}` chain returns a chain still holding `Ok{v}`;
on `Err{e}` with `pred` matching (the predicate evaluation returns a truthy
value) it returns a chain still holding the very same `Err{e}`; on `Err{e}`
with `pred` not matching it raises exactly `e` and does not return. -/
theorem C4_pick (v e m : JSVal) (pred : ErrorPredicate) :
    (TryChain.pick ⟨.Ok v⟩ pred = .ok (.fresh (.Ok v))) ∧
    (isErrorOf e pred = .ok m → truthy m = true →
      TryChain.pick ⟨.Err e⟩ pred = .ok (.fresh (.Err e))) ∧
    (isErrorOf e pred = .ok m → truthy m = false →
      TryChain.pick ⟨.Err e⟩ pred = .error e) := by
  refine ⟨rfl, ?_, ?_⟩ <;> intro h1 h2 <;> simp [TryChain.pick, h1, h2]

/-- Witness for C4 at concrete inputs: a matching classifier keeps `Err`, a
non-matching one re-raises the error itself. -/
theorem C4_pick_witness :
    TryChain.pick ⟨.Err (.obj 7)⟩ fnTrue = .ok (.fresh (.Err (.obj 7))) ∧
    TryChain.pick ⟨.Err (.obj 7)⟩ fnFalse = .error (.obj 7) := by
  constructor
  · exact (C4_pick (.num 0) (.obj 7) (.boolV true) fnTrue).2.1 rfl rfl
  · exact (C4_pick (.num 0) (.obj 7) (.boolV false) fnFalse).2.2 rfl rfl

/-- C5: `case(pred, f)` passes an `Ok` chain through unchanged (it returns the
receiver); on a matching `Err{e}` it invokes `f` on a fresh `Err{e}` chain and
returns a fresh chain holding `Ok` of `f`'s result; on a non-matching `Err{e}`
it passes the chain through unchanged without raising. -/
theorem C5_case (v e m : JSVal) (pred : ErrorPredicate) (f : TryChain → JSVal) :
    (TryChain.caseOf ⟨.Ok v⟩ pred f = .ok .self) ∧
    (isErrorOf e pred = .ok m → truthy m = true →
      TryChain.caseOf ⟨.Err e⟩ pred f = .ok (.fresh (.Ok (f ⟨.Err e⟩)))) ∧
    (isErrorOf e pred = .ok m → truthy m = false →
      TryChain.caseOf ⟨.Err e⟩ pred f = .ok .self) := by
  refine ⟨rfl, ?_, ?_⟩ <;> intro h1 h2 <;> simp [TryChain.caseOf, h1, h2]

/-- Witness for C5 at concrete inputs: a matching classifier hands the handler
a fresh `Err` chain and wraps its result in `Ok`; a non-matching one leaves the
chain untouched. -/
theorem C5_case_witness :
    TryChain.caseOf ⟨.Err (.obj 7)⟩ fnTrue (fun _ => .num 9) =
      .ok (.fresh (.Ok (.num 9))) ∧
    TryChain.caseOf ⟨.Err (.obj 7)⟩ fnFalse (fun _ => .num 9) = .ok .self := by
  constructor
  · exact (C5_case (.num 0) (.obj 7) (.boolV true) fnTrue _).2.1 rfl rfl
  · exact (C5_case (.num 0) (.obj 7) (.boolV false) fnFalse _).2.2 rfl rfl

/-- An arrow-function classifier returning `true` for every value.  Arrow
functions carry no `prototype` property, which is the shape the source's own
documentation uses as its classifier example. -/
def arrowTruePred : ErrorPredicate :=
  .func ⟨none, fun _ => false, fun _ => .ok (.boolV true)⟩

/-- The base `Error` constructor as a predicate value: `Error.prototype` is not
itself `instanceof Error`, and its prototype is `Object.prototype`, so the
shape heuristic classifies it as a plain classifier; `Error(e)` invoked without
`new` legally returns a fresh — hence truthy — `Error` object. -/
def errorCtorPred : ErrorPredicate :=
  .func ⟨some ⟨false, true⟩,
    (fun v => match v with | .errObj _ => true | _ => false),
    fun _ => .ok (.errObj "freshly constructed Error")⟩

/-- C6 (code behavior at the failing inputs): an arrow-function classifier —
the documentation's own example shape — makes `isErrorOf` throw the `TypeError`
of `Object.getPrototypeOf(undefined)` instead of invoking the classifier, and
the base `Error` constructor is misrouted to the call branch, so
`isErrorOf(42, Error)` yields a truthy value although `42` is no `Error`
instance. -/
theorem C6_heuristic_misroutes :
    isErrorOf (.errObj "boom") arrowTruePred = .error getPrototypeOfTypeError ∧
    isErrorOf (.num 42) errorCtorPred = .ok (.errObj "freshly constructed Error") ∧
    truthy (.errObj "freshly constructed Error") = true := by
  exact ⟨rfl, rfl, rfl⟩

/-- C7 counterexample: `tap` on an `Err` chain evaluates to `return this;` —
the receiver itself, not a freshly constructed chain — and `case` on an `Ok`
chain likewise returns the receiver. -/
theorem C7_counterexample :
    TryChain.tap ⟨.Err (.obj 0)⟩ (fun _ => .undef) = OpResult.self ∧
    TryChain.caseOf ⟨.Ok (.num 1)⟩ .other (fun _ => .undef) = .ok OpResult.self := by
  exact ⟨rfl, rfl⟩

/-- C7 amended: `map` always returns a freshly constructed chain, and so does
`pick` whenever it returns at all; `case` returns a fresh chain exactly on a
matching `Err` and otherwise returns the receiver itself; `tap` always returns
the receiver.  (The stored `Result` of the receiver is immutable by
construction in this model, as in the source's `readonly` field.) -/
theorem C7_amended (c : TryChain) (f : JSVal → JSVal) (pred : ErrorPredicate)
    (g : TryChain → JSVal) (e m : JSVal) (o : OpResult) :
    (∃ r, TryChain.map c f = .fresh r) ∧
    (TryChain.pick c pred = .ok o → ∃ r, o = .fresh r) ∧
    (∀ v, TryChain.caseOf ⟨.Ok v⟩ pred g = .ok .self) ∧
    (isErrorOf e pred = .ok m → truthy m = true →
      TryChain.caseOf ⟨.Err e⟩ pred g = .ok (.fresh (.Ok (g ⟨.Err e⟩)))) ∧
    (isErrorOf e pred = .ok m → truthy m = false →
      TryChain.caseOf ⟨.Err e⟩ pred g = .ok .self) ∧
    (TryChain.tap c f = .self) := by
  obtain ⟨r⟩ := c
  refine ⟨?_, ?_, fun v => rfl, ?_, ?_, ?_⟩
  · cases r <;> exact ⟨_, rfl⟩
  · cases r with
    | Ok v =>
      intro h
      have h2 : (Except.ok (OpResult.fresh (Result.Ok v)) : Except JSVal OpResult)
          = .ok o := h
      exact ⟨_, (Except.ok.inj h2).symm⟩
    | Err e' =>
      intro h
      rcases h' : isErrorOf e' pred with ex | mm
      · simp [TryChain.pick, h'] at h
      · by_cases hm : truthy mm = true
        · simp [TryChain.pick, h', hm] at h
          exact ⟨_, h.symm⟩
        · simp [TryChain.pick, h', hm] at h
  · intro h1 h2; simp [TryChain.caseOf, h1, h2]
  · intro h1 h2; simp [TryChain.caseOf, h1, h2]
  · cases r <;> rfl

/-- Witness for C7 amended at concrete inputs: `map` and `pick` allocate
fresh chains, a matching `case` allocates a fresh `Ok` chain. -/
theorem C7_amended_witness :
    (∃ r, TryChain.map ⟨.Ok (.num 3)⟩ (fun x => x) = .fresh r) ∧
    (∃ r, OpResult.fresh (Result.Ok (JSVal.num 5)) = OpResult.fresh r) ∧
    TryChain.caseOf ⟨.Err (.obj 7)⟩ fnTrue (fun _ => .num 9) =
      .ok (.fresh (.Ok (.num 9))) := by
  refine ⟨?_, ?_, ?_⟩
  · exact (C7_amended ⟨.Ok (.num 3)⟩ (fun x => x) fnTrue (fun _ => .num 9)
      (.obj 7) (.boolV true) .self).1
  · exact (C7_amended ⟨.Ok (.num 5)⟩ (fun x => x) fnTrue (fun _ => .num 9)
      (.obj 7) (.boolV true) (.fresh (.Ok (.num 5)))).2.1 rfl
  · exact (C7_amended ⟨.Ok (.num 5)⟩ (fun x => x) fnTrue (fun _ => .num 9)
      (.obj 7) (.boolV true) .self).2.2.2.1 rfl rfl

/-- C10: the source's `else if (fallback)` branches on the truthiness of the
`done` argument, not on whether an argument was passed, so an explicitly
supplied `undefined` (falsy) re-raises the stored error instead of being
invoked, while a function argument (always truthy) is invoked. -/
theorem C10_done_falsy_fallback :
    FallbackArg.truthy .undef = false ∧
    (∀ e : JSVal, TryChain.done ⟨.Err e⟩ .undef = .error e) ∧
    (∀ (e : JSVal) (f : JSVal → Except JSVal JSVal),
      TryChain.done ⟨.Err e⟩ (.func f) = f e) := by
  exact ⟨rfl, fun e => rfl, fun e f => rfl⟩

/-! ## Purity of chain construction (`src/do.ts` builders) -/

/-- One builder call on a pipeline chain, carrying the (possibly
side-effectful) step body it appends. -/
inductive BuildOp where
  | pipe : (JSVal → JSVal × Events) → BuildOp
  | pipeAwait : (JSVal → JSVal × Events) → BuildOp
  | rcall : (JSVal → List JSVal → JSVal × Events) → List JSVal → BuildOp
  | tap : (JSVal → Events) → BuildOp

/-- A chain under construction: a `Thunk`, or an `AsyncThunk` once an
asynchronous step has been appended (it never downgrades back). -/
inductive Chain where
  | sync : Thunk → Chain
  | promoted : AsyncThunk → Chain

/-- Application of one builder call, paired with the events emitted while the
builder itself runs.  Every builder body in `src/do.ts` only copies the step
array and appends a closure (`pipe`, `pipeAwait`) or wraps `f` uninvoked in a
new closure (`rcall`, `tap`); none of them invokes a step body, so each call
emits no events. -/
def Chain.applyOp : Chain → BuildOp → Chain × Events
  | .sync t, .pipe f => (.sync (t.pipe f), [])
  | .sync t, .pipeAwait f => (.promoted (t.pipeAwait f), [])
  | .sync t, .rcall f args => (.sync (t.rcall f args), [])
  | .sync t, .tap f => (.sync (t.tap f), [])
  | .promoted t, .pipe f => (.promoted (t.pipe f), [])
  | .promoted t, .pipeAwait f => (.promoted (t.pipeAwait f), [])
  | .promoted t, .rcall f args => (.promoted (t.rcall f args), [])
  | .promoted t, .tap f => (.promoted (t.tap f), [])

/-- Building a chain: seed it with `Do(value)` and apply the builder calls in
order, accumulating every event emitted during construction. -/
def buildChain (value : JSVal) (ops : List BuildOp) : Chain × Events :=
  ops.foldl (fun a op => let p := a.1.applyOp op; (p.1, a.2 ++ p.2))
    (.sync (Do value), [])

theorem applyOp_events (c : Chain) (op : BuildOp) : (c.applyOp op).2 = [] := by
  cases c <;> cases op <;> rfl

theorem buildChain_events_aux (ops : List BuildOp) (c : Chain) (es : Events) :
    (ops.foldl (fun a op => let p := a.1.applyOp op; (p.1, a.2 ++ p.2))
      (c, es)).2 = es := by
  induction ops generalizing c es with
  | nil => rfl
  | cons op rest ih =>
    rw [List.foldl_cons]
    show (rest.foldl _ ((c.applyOp op).1, es ++ (c.applyOp op).2)).2 = es
    rw [applyOp_events, List.append_nil]
    exact ih _ _

/-- C8: constructing a chain never runs a step body.  Whatever side-effectful
bodies are handed to `pipe`, `pipeAwait`, `rcall` or `tap` (and whatever seed
`Do` captures), building the chain without calling `done()` emits no events at
all — every appended body, including the seed producer, stays uninvoked. -/
theorem C8_construction_pure (value : JSVal) (ops : List BuildOp) :
    (buildChain value ops).2 = [] :=
  buildChain_events_aux ops (.sync (Do value)) []

end Metaflow
